import Mathlib

set_option linter.unusedVariables false

/-!
Verification of the analytical core of the MicrojetDetection repository
(`scripts/frame.py`).  The numeric Python code is embedded shallowly:

* droplet records are the `[center_row, radius]` pairs that
  `Frame.detect_droplets_and_jet` appends to `droplet_list`, modelled as
  `ℚ × ℚ` (Python's float arithmetic is idealised as exact rational
  arithmetic);
* `np.argmin` over `np.linalg.norm(filtered - target, axis=1)` picks the
  first index attaining the minimal Euclidean distance; because the square
  root is strictly monotone this is the first index attaining the minimal
  squared distance, which is what the executable embedding computes;
* integer frame rates, row coordinates of contour points, and Python's
  `int(...)` truncation toward zero are modelled on `ℤ`;
* the `ZeroDivisionError` raised by `1 / Frame.frame_rate` when the frame
  rate is zero (its class-level default) is modelled by returning `none`.
-/

namespace Microjet

/-- A droplet record `[center_row, radius]` as appended to `droplet_list`
in `Frame.detect_droplets_and_jet`. -/
abbrev Droplet := ℚ × ℚ

/-- The hard-coded pixel-to-meter calibration constant
(`conversion = 0.000038` in `Frame.calculate_droplet_speed`). -/
def conversion : ℚ := 38 / 1000000

/-- The class-level default of the `Frame.frame_rate` attribute
(`frame_rate = 0` in `class Frame`). -/
def frame_rate_default : ℤ := 0

/-- Squared Euclidean distance between the `(center_row, radius)` vectors of
two droplet records, as compared by
`np.linalg.norm(filtered_pairs_array - np.array(target_pair), axis=1)`
(the square root is strictly monotone, so comparisons of norms and of
squared norms agree). -/
def distSq (p q : Droplet) : ℚ := (p.1 - q.1) ^ 2 + (p.2 - q.2) ^ 2

/-- `filtered_pairs = [pair for pair in reference_pairs if pair[0] > target_pair[0]]`. -/
def candidates (reference_pairs : List Droplet) (target_pair : Droplet) : List Droplet :=
  reference_pairs.filter (fun pair => target_pair.1 < pair.1)

/-- `closest_pair = filtered_pairs[np.argmin(distances)]`: the first element
of the candidate list attaining the minimal distance to the target, `none`
when the candidate list is empty (the source guards on
`len(filtered_pairs_array) != 0`). -/
def closestPair (target_pair : Droplet) : List Droplet → Option Droplet
  | [] => none
  | c :: cs =>
      some (cs.foldl
        (fun best x => if distSq x target_pair < distSq best target_pair then x else best) c)

/-- The `closest_pairs` list built by the loop
`for target_pair, reference_pair in zip(target_pairs, reference_pairs)` in
`Frame.calculate_droplet_speed`; each iteration also computes the unused
diagnostic `y_intercept_difference`. -/
def closestPairs (target_pairs reference_pairs : List Droplet) : List (ℚ × ℚ) :=
  (target_pairs.zip reference_pairs).filterMap fun tp =>
    let y_intercept_difference := tp.1.1 - tp.2.1
    (closestPair tp.1 (candidates reference_pairs tp.1)).map fun c => (tp.1.1, c.1)

/-- The `distance` accumulator of `Frame.calculate_droplet_speed`: `0`
initially, and after the loop `sum(pair[1] - pair[0]) / len(closest_pairs)`
when at least one pair was recorded. -/
def meanRowAdvance (closest_pairs : List (ℚ × ℚ)) : ℚ :=
  if 0 < closest_pairs.length then
    closest_pairs.foldl (fun d pair => d + (pair.2 - pair.1)) 0 / (closest_pairs.length : ℚ)
  else 0

/-- `Frame.calculate_droplet_speed(lists, prev_lists)` with the class-level
`Frame.frame_rate` made an explicit argument.  Returns `none` exactly when
the frame rate is `0`, where Python raises `ZeroDivisionError` at
`1 / Frame.frame_rate`. -/
def calculate_droplet_speed (lists prev_lists : List Droplet) (frame_rate : ℤ) : Option ℚ :=
  if frame_rate = 0 then none
  else
    some (meanRowAdvance (closestPairs lists prev_lists) * conversion / (1 / (frame_rate : ℚ)))

/-- Modelled from the spec: the variant of the pairing loop that omits the
vestigial `y_intercept_difference` diagnostic (spec 4.5 step 2, "an
implementer may omit or retain for instrumentation only"). -/
def closestPairsNoDiagnostic (target_pairs reference_pairs : List Droplet) : List (ℚ × ℚ) :=
  (target_pairs.zip reference_pairs).filterMap fun tp =>
    (closestPair tp.1 (candidates reference_pairs tp.1)).map fun c => (tp.1.1, c.1)

/-- Modelled from the spec: `calculate_droplet_speed` with the diagnostic
computation omitted. -/
def calculate_droplet_speed_noDiagnostic (lists prev_lists : List Droplet)
    (frame_rate : ℤ) : Option ℚ :=
  if frame_rate = 0 then none
  else
    some (meanRowAdvance (closestPairsNoDiagnostic lists prev_lists) * conversion
      / (1 / (frame_rate : ℚ)))

/-! Helper lemmas about the correspondence estimator. -/

lemma div_one_div (a f : ℚ) : a / (1 / f) = a * f := by
  rw [one_div, div_eq_mul_inv, inv_inv]

lemma foldl_closest_mem (t c : Droplet) (cs : List Droplet) :
    cs.foldl (fun best x => if distSq x t < distSq best t then x else best) c ∈ c :: cs := by
  induction cs generalizing c with
  | nil => simp
  | cons x xs ih =>
    simp only [List.foldl_cons]
    by_cases h : distSq x t < distSq c t
    · rw [if_pos h]
      rcases List.mem_cons.mp (ih x) with h1 | h1
      · simp [h1]
      · exact List.mem_cons_of_mem _ (List.mem_cons_of_mem _ h1)
    · rw [if_neg h]
      rcases List.mem_cons.mp (ih c) with h1 | h1
      · simp [h1]
      · exact List.mem_cons_of_mem _ (List.mem_cons_of_mem _ h1)

lemma foldl_closest_le (t : Droplet) (cs : List Droplet) : ∀ c : Droplet,
    distSq (cs.foldl (fun best x => if distSq x t < distSq best t then x else best) c) t
        ≤ distSq c t
    ∧ ∀ y ∈ cs,
        distSq (cs.foldl (fun best x => if distSq x t < distSq best t then x else best) c) t
          ≤ distSq y t := by
  induction cs with
  | nil =>
    intro c
    exact ⟨le_refl _, by simp⟩
  | cons x xs ih =>
    intro c
    simp only [List.foldl_cons]
    have hbc : distSq (if distSq x t < distSq c t then x else c) t ≤ distSq c t := by
      by_cases h : distSq x t < distSq c t
      · rw [if_pos h]; exact le_of_lt h
      · rw [if_neg h]
    have hbx : distSq (if distSq x t < distSq c t then x else c) t ≤ distSq x t := by
      by_cases h : distSq x t < distSq c t
      · rw [if_pos h]
      · rw [if_neg h]; exact not_lt.mp h
    refine ⟨le_trans (ih _).1 hbc, ?_⟩
    intro y hy
    rcases List.mem_cons.mp hy with rfl | h2
    · exact le_trans (ih _).1 hbx
    · exact (ih _).2 y h2

lemma closestPair_spec (t : Droplet) (l : List Droplet) (hl : l ≠ []) :
    ∃ c, closestPair t l = some c ∧ c ∈ l ∧ ∀ y ∈ l, distSq c t ≤ distSq y t := by
  cases l with
  | nil => exact absurd rfl hl
  | cons a as =>
    refine ⟨_, rfl, foldl_closest_mem t a as, ?_⟩
    intro y hy
    rcases List.mem_cons.mp hy with rfl | h2
    · exact (foldl_closest_le t as _).1
    · exact (foldl_closest_le t as _).2 y h2

lemma mem_candidates {prev : List Droplet} {t p : Droplet} :
    p ∈ candidates prev t ↔ p ∈ prev ∧ t.1 < p.1 := by
  simp [candidates]

lemma foldl_add_sub (l : List (ℚ × ℚ)) (a : ℚ) :
    l.foldl (fun d pair => d + (pair.2 - pair.1)) a = a + (l.map fun p => p.2 - p.1).sum := by
  induction l generalizing a with
  | nil => simp
  | cons x xs ih => simp [ih, add_assoc]

lemma meanRowAdvance_eq {l : List (ℚ × ℚ)} (hl : l ≠ []) :
    meanRowAdvance l = (l.map fun p => p.2 - p.1).sum / (l.length : ℚ) := by
  rw [meanRowAdvance, if_pos (List.length_pos.mpr hl), foldl_add_sub, zero_add]

lemma calculate_droplet_speed_eq (lists prev_lists : List Droplet) {frame_rate : ℤ}
    (hf : frame_rate ≠ 0) :
    calculate_droplet_speed lists prev_lists frame_rate
      = some (meanRowAdvance (closestPairs lists prev_lists) * conversion * (frame_rate : ℚ)) := by
  rw [calculate_droplet_speed, if_neg hf, div_one_div]

lemma closestPair_mem {t c : Droplet} {l : List Droplet} (h : closestPair t l = some c) :
    c ∈ l := by
  cases l with
  | nil => simp [closestPair] at h
  | cons a as =>
    simp only [closestPair, Option.some.injEq] at h
    rw [← h]
    exact foldl_closest_mem t a as

lemma take_length_zip {α β : Type} : ∀ (l₁ : List α) (l₂ : List β),
    (l₁.take l₂.length).zip l₂ = l₁.zip l₂ := by
  intro l₁
  induction l₁ with
  | nil => intro l₂; simp
  | cons a l₁ ih =>
    intro l₂
    cases l₂ with
    | nil => simp
    | cons b l₂ => simp [ih l₂]

lemma mem_closestPairs_iff {cur prev : List Droplet} {q : ℚ × ℚ} :
    q ∈ closestPairs cur prev
      ↔ ∃ t r, (t, r) ∈ cur.zip prev
          ∧ ∃ c, closestPair t (candidates prev t) = some c ∧ q = (t.1, c.1) := by
  constructor
  · intro hq
    rcases List.mem_filterMap.mp hq with ⟨⟨t, r⟩, htr, heq⟩
    simp only [Option.map_eq_some'] at heq
    rcases heq with ⟨c, hc, hq'⟩
    exact ⟨t, r, htr, c, hc, hq'.symm⟩
  · rintro ⟨t, r, htr, c, hc, rfl⟩
    exact List.mem_filterMap.mpr ⟨(t, r), htr, by simp [hc]⟩

/-!
Embedding of the per-frame pass `Frame.detect_droplets_and_jet` together
with `Frame.droplet_rad` and `Frame.jet_width_length`.  A contour is carried
with the scalar descriptors the pass consumes: the zeroth-order moment
`m00` (the skip gate `moment["m00"] != 0`), the `roundness` value computed
by `Frame.detect_roundness` (`4*pi*area/perimeter**2`; the pass branches
only on this scalar, which is carried as a descriptor because `pi` is
irrational), the `cv.contourArea` value, the truncated centroid row
`center_y = int(m01/m00)`, and the boundary points `[x, y]` of the contour.
The droplet radius `np.sqrt(area/np.pi)` is irrational, so the pass is
generic over the scalar type `K` of radii and over the radius function
`rad`; theorems instantiate `rad` with `Real.sqrt (area / Real.pi)`.
Rendering calls (`cv.circle`, `cv.rectangle`) mutate only the display copy
`self.cimg` and are omitted.
-/

/-- The shape descriptors consumed by one iteration of the contour loop of
`Frame.detect_droplets_and_jet`. -/
structure Contour where
  m00 : ℚ
  roundness : ℚ
  area : ℚ
  center_row : ℚ
  points : List (ℤ × ℤ)
deriving DecidableEq

/-- The classification outcome for one non-degenerate shape (spec 4.2). -/
inductive Category
  | DROPLET
  | JET
  | NONE
deriving DecidableEq

/-- The classification policy applied to a shape's roundness value: the two
independent guards `roundness >= 0.5` and `roundness <= 0.3` of the contour
loop (mutually exclusive since `0.3 < 0.5`). -/
def classify (roundness : ℚ) : Category :=
  if 1 / 2 ≤ roundness then Category.DROPLET
  else if roundness ≤ 3 / 10 then Category.JET
  else Category.NONE

/-- `int(np.mean(xs))` for a list of integers: the exact rational mean,
truncated toward zero (`Int.tdiv` truncates toward zero, matching Python's
`int(...)` applied to a nonnegative-or-negative float). -/
def int_mean (xs : List ℤ) : ℤ := Int.tdiv xs.sum xs.length

/-- `np.amax(cnt, axis=0)[1]` / `np.amin(cnt, axis=0)[1]`-style reduction:
maximum of a list of integers (`0` on the empty list, which the source never
hits because contours are non-empty). -/
def listAmax : List ℤ → ℤ
  | [] => 0
  | y :: ys => ys.foldl max y

/-- Minimum counterpart of `listAmax`. -/
def listAmin : List ℤ → ℤ
  | [] => 0
  | y :: ys => ys.foldl min y

/-- `Frame.jet_width_length(cnt)`: length is the row extent; width sorts the
column coordinates, splits them at `int(size/2)`, and subtracts the
`int(np.mean(...))` of the left half from that of the right half.  Returns
`(jet_width, jet_length)` in the source's order. -/
def jet_width_length (cnt : List (ℤ × ℤ)) : ℤ × ℤ :=
  let max_y := listAmax (cnt.map Prod.snd)
  let min_y := listAmin (cnt.map Prod.snd)
  let x_vals := List.insertionSort (· ≤ ·) (cnt.map Prod.fst)
  let seperator := x_vals.length / 2
  let first_half := x_vals.take seperator
  let second_half := x_vals.drop seperator
  let x_val_left := int_mean first_half
  let x_val_right := int_mean second_half
  (x_val_right - x_val_left, max_y - min_y)

/-- `Frame.droplet_rad`: computes the radius from the area and updates the
droplet count and radius sum (the `cv.circle` overlay is a rendering side
effect on `self.cimg`, omitted). -/
def droplet_rad {K : Type} [Field K] (rad : ℚ → K) (area : ℚ)
    (circles_num : ℕ) (radius_sum : K) : ℕ × K × K :=
  let radius := rad area
  (circles_num + 1, radius_sum + radius, radius)

/-- The loop state of `Frame.detect_droplets_and_jet`. -/
structure DetectState (K : Type) where
  circles_num : ℕ
  radius_sum : K
  jet_width : ℤ
  jet_length : ℤ
  droplet_list : List (ℚ × K)

/-- One iteration of the contour loop of `Frame.detect_droplets_and_jet`:
skip when `m00 = 0`; otherwise apply the two independent classification
guards. -/
def detectStep {K : Type} [Field K] (rad : ℚ → K) (st : DetectState K)
    (cnt : Contour) : DetectState K :=
  if cnt.m00 ≠ 0 then
    let st1 :=
      if 1 / 2 ≤ cnt.roundness then
        let r := droplet_rad rad cnt.area st.circles_num st.radius_sum
        { st with
            circles_num := r.1
            radius_sum := r.2.1
            droplet_list := st.droplet_list ++ [(cnt.center_row, r.2.2)] }
      else st
    if cnt.roundness ≤ 3 / 10 then
      let wl := jet_width_length cnt.points
      { st1 with jet_width := wl.1, jet_length := wl.2 }
    else st1
  else st

/-- `Frame.detect_droplets_and_jet` on the discovered contour list: returns
`(droplet_list, radius_avg, jet_width, jet_length)` (the annotated image
`self.cimg` is a rendering artifact, omitted). -/
def detect_droplets_and_jet {K : Type} [Field K] (rad : ℚ → K)
    (contours : List Contour) : List (ℚ × K) × K × ℤ × ℤ :=
  let st := contours.foldl (detectStep rad) ⟨0, 0, 0, 0, []⟩
  let radius_avg : K := if 0 < st.circles_num then st.radius_sum / (st.circles_num : K) else 0
  (st.droplet_list, radius_avg, st.jet_width, st.jet_length)

/-!
Embedding of `Frame.process_image`.  The five OpenCV primitives it composes
(grayscale conversion, erosion and dilation with the fixed 5x5 ones kernel
and one iteration, 5x5 box blur, inverse binary thresholding against a
maximum of 255) are external library collaborators, modelled as an abstract
bundle of deterministic image transformations over an arbitrary image type;
`Frame.process_image` itself is the composition, including the
`self.image = cv.cvtColor(...)` mutation of the frame state.
-/

/-- The OpenCV primitives used by `Frame.process_image`, abstracted over the
image representation. -/
structure CvOps (Image : Type) where
  cvtColorGray : Image → Image
  erode : Image → Image
  dilate : Image → Image
  blur : Image → Image
  thresholdBinaryInv : Image → ℤ → ℤ → Image

/-- The mutable state of a `Frame` object visible to `process_image`: the
instance field `self.image` plus the class-level attributes (`outline`,
`threshold`, `frame_rate`) and the display copy `self.cimg`. -/
structure FrameState (Image : Type) where
  image : Image
  cimg : Image
  outline : Bool
  threshold_setting : ℤ
  frame_rate : ℤ

/-- `Frame.process_image(threshold)`: grayscale (stored back into
`self.image`), erode, dilate, blur, inverse binary threshold at `threshold`
against `max_val = 255`; returns the updated frame state and the mask. -/
def process_image {Image : Type} (ops : CvOps Image) (s : FrameState Image)
    (threshold : ℤ) : FrameState Image × Image :=
  let gray := ops.cvtColorGray s.image
  let img_erode := ops.erode gray
  let img_dilate := ops.dilate img_erode
  let img_blur := ops.blur img_dilate
  let thresh1 := ops.thresholdBinaryInv img_blur threshold 255
  ({ s with image := gray }, thresh1)

/-! Helper lemmas about the frame pass, the jet measurer, and truncation. -/

lemma classify_eq_DROPLET {r : ℚ} : classify r = Category.DROPLET ↔ 1 / 2 ≤ r := by
  unfold classify
  split_ifs with h1 h2
  · exact iff_of_true rfl h1
  · exact iff_of_false (by decide) h1
  · exact iff_of_false (by decide) h1

lemma classify_eq_JET {r : ℚ} : classify r = Category.JET ↔ r ≤ 3 / 10 := by
  unfold classify
  split_ifs with h1 h2
  · exact iff_of_false (by decide) (fun h => by linarith)
  · exact iff_of_true rfl h2
  · exact iff_of_false (by decide) h2

lemma classify_eq_NONE {r : ℚ} :
    classify r = Category.NONE ↔ ¬ (1 / 2 ≤ r) ∧ ¬ (r ≤ 3 / 10) := by
  unfold classify
  split_ifs with h1 h2
  · exact iff_of_false (by decide) (fun h => h.1 h1)
  · exact iff_of_false (by decide) (fun h => h.2 h2)
  · exact iff_of_true rfl ⟨h1, h2⟩

lemma detectStep_none {K : Type} [Field K] (rad : ℚ → K) (st : DetectState K)
    (cnt : Contour) (h : classify cnt.roundness = Category.NONE) :
    detectStep rad st cnt = st := by
  rcases classify_eq_NONE.mp h with ⟨h1, h2⟩
  unfold detectStep
  by_cases h0 : cnt.m00 ≠ 0
  · simp only [if_pos h0, if_neg h1, if_neg h2]
  · simp only [if_neg h0]

/-- The contours that take the droplet branch of the loop: non-degenerate and
`roundness >= 0.5`. -/
def dropletFilter (contours : List Contour) : List Contour :=
  contours.filter fun c => decide (c.m00 ≠ 0 ∧ 1 / 2 ≤ c.roundness)

lemma detectStep_droplet_fields {K : Type} [Field K] (rad : ℚ → K) (st : DetectState K)
    (cnt : Contour) :
    (detectStep rad st cnt).circles_num
        = st.circles_num + (if cnt.m00 ≠ 0 ∧ 1 / 2 ≤ cnt.roundness then 1 else 0)
    ∧ (detectStep rad st cnt).radius_sum
        = st.radius_sum + (if cnt.m00 ≠ 0 ∧ 1 / 2 ≤ cnt.roundness then rad cnt.area else 0)
    ∧ (detectStep rad st cnt).droplet_list
        = st.droplet_list ++ (if cnt.m00 ≠ 0 ∧ 1 / 2 ≤ cnt.roundness
            then [(cnt.center_row, rad cnt.area)] else []) := by
  unfold detectStep droplet_rad
  by_cases h0 : cnt.m00 ≠ 0
  · rw [if_pos h0]
    by_cases h1 : 1 / 2 ≤ cnt.roundness
    · have h2 : ¬ cnt.roundness ≤ 3 / 10 := by
        intro h2
        have := le_trans h1 h2
        norm_num at this
      rw [if_pos h1, if_neg h2, if_pos (⟨h0, h1⟩ : _ ∧ _), if_pos (⟨h0, h1⟩ : _ ∧ _),
        if_pos (⟨h0, h1⟩ : _ ∧ _)]
      exact ⟨rfl, rfl, rfl⟩
    · have hc : ¬ (cnt.m00 ≠ 0 ∧ 1 / 2 ≤ cnt.roundness) := fun hc => h1 hc.2
      rw [if_neg h1, if_neg hc, if_neg hc, if_neg hc]
      by_cases h2 : cnt.roundness ≤ 3 / 10
      · rw [if_pos h2]
        exact ⟨rfl, (add_zero _).symm, (List.append_nil _).symm⟩
      · rw [if_neg h2]
        exact ⟨rfl, (add_zero _).symm, (List.append_nil _).symm⟩
  · have hc : ¬ (cnt.m00 ≠ 0 ∧ 1 / 2 ≤ cnt.roundness) := fun hc => h0 hc.1
    rw [if_neg h0, if_neg hc, if_neg hc, if_neg hc]
    exact ⟨rfl, (add_zero _).symm, (List.append_nil _).symm⟩

lemma detect_foldl_inv {K : Type} [Field K] (rad : ℚ → K) :
    ∀ (contours : List Contour) (st : DetectState K),
      (contours.foldl (detectStep rad) st).circles_num
          = st.circles_num + (dropletFilter contours).length
      ∧ (contours.foldl (detectStep rad) st).radius_sum
          = st.radius_sum + ((dropletFilter contours).map fun c => rad c.area).sum
      ∧ (contours.foldl (detectStep rad) st).droplet_list
          = st.droplet_list
              ++ ((dropletFilter contours).map fun c => (c.center_row, rad c.area)) := by
  intro contours
  induction contours with
  | nil => intro st; simp [dropletFilter]
  | cons c l ih =>
    intro st
    simp only [List.foldl_cons]
    obtain ⟨e1, e2, e3⟩ := detectStep_droplet_fields rad st c
    obtain ⟨i1, i2, i3⟩ := ih (detectStep rad st c)
    by_cases hc : c.m00 ≠ 0 ∧ 1 / 2 ≤ c.roundness
    · have hfil : dropletFilter (c :: l) = c :: dropletFilter l := by
        unfold dropletFilter
        rw [List.filter_cons, if_pos (by simp only [decide_eq_true_eq]; exact hc)]
      rw [hfil]
      refine ⟨?_, ?_, ?_⟩
      · rw [i1, e1, if_pos hc]
        simp only [List.length_cons]
        omega
      · rw [i2, e2, if_pos hc]
        simp [add_assoc]
      · rw [i3, e3, if_pos hc]
        simp
    · have hfil : dropletFilter (c :: l) = dropletFilter l := by
        unfold dropletFilter
        rw [List.filter_cons, if_neg (by simp only [decide_eq_true_eq]; exact hc)]
      rw [hfil]
      refine ⟨?_, ?_, ?_⟩
      · rw [i1, e1, if_neg hc]
        simp
      · rw [i2, e2, if_neg hc]
        simp
      · rw [i3, e3, if_neg hc]
        simp

lemma foldl_max_mem (a : ℤ) (l : List ℤ) : l.foldl max a ∈ a :: l := by
  induction l generalizing a with
  | nil => simp
  | cons x xs ih =>
    simp only [List.foldl_cons]
    rcases List.mem_cons.mp (ih (max a x)) with h | h
    · rcases max_choice a x with hm | hm <;> rw [h, hm]
      · exact List.mem_cons_self _ _
      · exact List.mem_cons_of_mem _ (List.mem_cons_self _ _)
    · exact List.mem_cons_of_mem _ (List.mem_cons_of_mem _ h)

lemma foldl_max_le (a : ℤ) (l : List ℤ) : ∀ y ∈ a :: l, y ≤ l.foldl max a := by
  induction l generalizing a with
  | nil =>
    intro y hy
    have h : y = a := by simpa using hy
    simp [h]
  | cons x xs ih =>
    intro y hy
    simp only [List.foldl_cons]
    rcases List.mem_cons.mp hy with rfl | h1
    · exact le_trans (le_max_left _ x) (ih (max _ x) _ (List.mem_cons_self _ _))
    · rcases List.mem_cons.mp h1 with rfl | h2
      · exact le_trans (le_max_right a _) (ih (max a _) _ (List.mem_cons_self _ _))
      · exact ih (max a x) y (List.mem_cons_of_mem _ h2)

lemma foldl_min_mem (a : ℤ) (l : List ℤ) : l.foldl min a ∈ a :: l := by
  induction l generalizing a with
  | nil => simp
  | cons x xs ih =>
    simp only [List.foldl_cons]
    rcases List.mem_cons.mp (ih (min a x)) with h | h
    · rcases min_choice a x with hm | hm <;> rw [h, hm]
      · exact List.mem_cons_self _ _
      · exact List.mem_cons_of_mem _ (List.mem_cons_self _ _)
    · exact List.mem_cons_of_mem _ (List.mem_cons_of_mem _ h)

lemma foldl_min_le (a : ℤ) (l : List ℤ) : ∀ y ∈ a :: l, l.foldl min a ≤ y := by
  induction l generalizing a with
  | nil =>
    intro y hy
    have h : y = a := by simpa using hy
    simp [h]
  | cons x xs ih =>
    intro y hy
    simp only [List.foldl_cons]
    rcases List.mem_cons.mp hy with rfl | h1
    · exact le_trans (ih (min _ x) _ (List.mem_cons_self _ _)) (min_le_left _ x)
    · rcases List.mem_cons.mp h1 with rfl | h2
      · exact le_trans (ih (min a _) _ (List.mem_cons_self _ _)) (min_le_right a _)
      · exact ih (min a x) y (List.mem_cons_of_mem _ h2)

lemma listAmax_spec {l : List ℤ} (hl : l ≠ []) :
    listAmax l ∈ l ∧ ∀ y ∈ l, y ≤ listAmax l := by
  cases l with
  | nil => exact absurd rfl hl
  | cons a as => exact ⟨foldl_max_mem a as, foldl_max_le a as⟩

lemma listAmin_spec {l : List ℤ} (hl : l ≠ []) :
    listAmin l ∈ l ∧ ∀ y ∈ l, listAmin l ≤ y := by
  cases l with
  | nil => exact absurd rfl hl
  | cons a as => exact ⟨foldl_min_mem a as, foldl_min_le a as⟩

/-- Truncation toward zero of a rational, the behaviour of Python's
`int(...)` on a (finite) float. -/
def truncQ (q : ℚ) : ℤ := if 0 ≤ q then ⌊q⌋ else ⌈q⌉

lemma int_mean_eq_truncQ (xs : List ℤ) (hxs : xs ≠ []) :
    int_mean xs = truncQ ((xs.sum : ℚ) / (xs.length : ℚ)) := by
  have hd : 0 < xs.length := List.length_pos.mpr hxs
  unfold int_mean truncQ
  by_cases hs : 0 ≤ xs.sum
  · have hq : (0 : ℚ) ≤ (xs.sum : ℚ) / (xs.length : ℚ) := by
      apply div_nonneg
      · exact_mod_cast hs
      · positivity
    rw [if_pos hq, Rat.floor_intCast_div_natCast]
    exact Int.tdiv_eq_ediv hs (by exact_mod_cast hd.le)
  · push_neg at hs
    have hq : (xs.sum : ℚ) / (xs.length : ℚ) < 0 := by
      apply div_neg_of_neg_of_pos
      · exact_mod_cast hs
      · exact_mod_cast hd
    rw [if_neg (not_le.mpr hq)]
    have h1 : ⌈(xs.sum : ℚ) / (xs.length : ℚ)⌉ = -((-xs.sum) / (xs.length : ℤ)) := by
      rw [show ((xs.sum : ℚ) / (xs.length : ℚ))
            = -((((-xs.sum : ℤ) : ℚ)) / (xs.length : ℚ)) by push_cast; ring,
        Int.ceil_neg, Rat.floor_intCast_div_natCast]
    have h2 : xs.sum.tdiv (xs.length : ℤ) = -((-xs.sum).tdiv (xs.length : ℤ)) := by
      rw [Int.neg_tdiv, neg_neg]
    rw [h1, h2, Int.tdiv_eq_ediv (by omega) (by exact_mod_cast hd.le)]

/-! Claims about the Correspondence and Speed Estimator. -/

/-- Claim C1: for every current droplet list, previous droplet list, and
positive frame rate, the returned speed equals
`mean_row_advance * pixel_to_meter_conversion * frame_rate`; for each
positionally processed target whose candidate set (all previous-list droplets
with `center_row` strictly greater than the target's) is non-empty, the
recorded pair uses a candidate whose `(center_row, radius)` vector is closest
to the target's by Euclidean distance, and `mean_row_advance` is the
arithmetic mean of the recorded row advances. -/
theorem droplet_speed_formula (lists prev_lists : List Droplet) (frame_rate : ℤ)
    (hf : 0 < frame_rate) :
    calculate_droplet_speed lists prev_lists frame_rate
      = some (meanRowAdvance (closestPairs lists prev_lists) * conversion * (frame_rate : ℚ))
    ∧ (closestPairs lists prev_lists ≠ [] →
        meanRowAdvance (closestPairs lists prev_lists)
          = ((closestPairs lists prev_lists).map fun p => p.2 - p.1).sum
              / ((closestPairs lists prev_lists).length : ℚ))
    ∧ ∀ t r, (t, r) ∈ lists.zip prev_lists →
        (∀ p, p ∈ candidates prev_lists t ↔ p ∈ prev_lists ∧ t.1 < p.1)
        ∧ (candidates prev_lists t ≠ [] →
            ∃ c, c ∈ candidates prev_lists t
              ∧ closestPair t (candidates prev_lists t) = some c
              ∧ (t.1, c.1) ∈ closestPairs lists prev_lists
              ∧ ∀ y ∈ candidates prev_lists t,
                  Real.sqrt ((distSq c t : ℚ) : ℝ) ≤ Real.sqrt ((distSq y t : ℚ) : ℝ)) := by
  refine ⟨calculate_droplet_speed_eq _ _ (ne_of_gt hf), fun h => meanRowAdvance_eq h, ?_⟩
  intro t r htr
  refine ⟨fun p => mem_candidates, fun hc => ?_⟩
  obtain ⟨c, hcp, hcm, hcmin⟩ := closestPair_spec t _ hc
  refine ⟨c, hcm, hcp, ?_, ?_⟩
  · exact mem_closestPairs_iff.mpr ⟨t, r, htr, c, hcp, rfl⟩
  · intro y hy
    exact Real.sqrt_le_sqrt (by exact_mod_cast hcmin y hy)

/-- Witness for C1 at the spec's worked example (section 8): current list
`[(40, 3)]`, previous list `[(50, 3)]`, frame rate `1000`. -/
theorem droplet_speed_formula_witness :
    calculate_droplet_speed [((40 : ℚ), (3 : ℚ))] [((50 : ℚ), (3 : ℚ))] 1000
      = some (meanRowAdvance (closestPairs [((40 : ℚ), (3 : ℚ))] [((50 : ℚ), (3 : ℚ))])
          * conversion * ((1000 : ℤ) : ℚ)) :=
  (droplet_speed_formula [((40 : ℚ), (3 : ℚ))] [((50 : ℚ), (3 : ℚ))] 1000 (by decide)).1

/-- Counterexample to Claim C3 as stated: with current list `[(2, 3)]` and
previous list `[(12, 3), (7, 3)]` the shorter length is `1`, yet truncating
both lists to length `1` changes the returned speed, because previous-list
entries beyond the shorter length still serve as correspondence candidates
(here the dropped `(7, 3)` was the closest candidate). -/
theorem speed_truncation_counterexample :
    calculate_droplet_speed ([((2 : ℚ), (3 : ℚ))].take 1)
        ([((12 : ℚ), (3 : ℚ)), ((7 : ℚ), (3 : ℚ))].take 1) 1
      ≠ calculate_droplet_speed [((2 : ℚ), (3 : ℚ))]
          [((12 : ℚ), (3 : ℚ)), ((7 : ℚ), (3 : ℚ))] 1 := by
  have hc1 : candidates [((12 : ℚ), (3 : ℚ))] ((2 : ℚ), (3 : ℚ)) = [((12 : ℚ), (3 : ℚ))] := by
    norm_num [candidates]
  have hc2 : candidates [((12 : ℚ), (3 : ℚ)), ((7 : ℚ), (3 : ℚ))] ((2 : ℚ), (3 : ℚ))
      = [((12 : ℚ), (3 : ℚ)), ((7 : ℚ), (3 : ℚ))] := by
    norm_num [candidates]
  have hp1 : closestPair ((2 : ℚ), (3 : ℚ)) [((12 : ℚ), (3 : ℚ))] = some ((12 : ℚ), (3 : ℚ)) := by
    simp [closestPair]
  have hp2 : closestPair ((2 : ℚ), (3 : ℚ)) [((12 : ℚ), (3 : ℚ)), ((7 : ℚ), (3 : ℚ))]
      = some ((7 : ℚ), (3 : ℚ)) := by
    norm_num [closestPair, distSq]
  have h1 : closestPairs [((2 : ℚ), (3 : ℚ))] [((12 : ℚ), (3 : ℚ))]
      = [((2 : ℚ), (12 : ℚ))] := by
    simp [closestPairs, List.filterMap_cons, hc1, hp1]
  have h2 : closestPairs [((2 : ℚ), (3 : ℚ))] [((12 : ℚ), (3 : ℚ)), ((7 : ℚ), (3 : ℚ))]
      = [((2 : ℚ), (7 : ℚ))] := by
    simp [closestPairs, List.filterMap_cons, hc2, hp2]
  have hm1 : meanRowAdvance [((2 : ℚ), (12 : ℚ))] = 10 := by
    norm_num [meanRowAdvance]
  have hm2 : meanRowAdvance [((2 : ℚ), (7 : ℚ))] = 5 := by
    norm_num [meanRowAdvance]
  intro h
  rw [show ([((2 : ℚ), (3 : ℚ))].take 1) = [((2 : ℚ), (3 : ℚ))] from rfl,
    show ([((12 : ℚ), (3 : ℚ)), ((7 : ℚ), (3 : ℚ))].take 1) = [((12 : ℚ), (3 : ℚ))] from rfl,
    calculate_droplet_speed_eq _ _ (by decide : (1 : ℤ) ≠ 0),
    calculate_droplet_speed_eq _ _ (by decide : (1 : ℤ) ≠ 0), h1, h2, hm1, hm2] at h
  norm_num [conversion] at h

/-- Claim C3 (amended): current-list entries beyond the previous list's length
are unused — truncating the current list to the previous list's length leaves
the returned speed unchanged (previous-list entries beyond the current list's
length remain in use as correspondence candidates, so the symmetric truncation
of the claim as stated fails). -/
theorem speed_ignores_extra_targets (lists prev_lists : List Droplet) (frame_rate : ℤ) :
    calculate_droplet_speed (lists.take prev_lists.length) prev_lists frame_rate
      = calculate_droplet_speed lists prev_lists frame_rate := by
  unfold calculate_droplet_speed closestPairs
  rw [take_length_zip]

/-- Claim C5: for every current droplet list and positive frame rate, an empty
previous list yields speed `0` and no error. -/
theorem empty_prev_list_speed_zero (lists : List Droplet) (frame_rate : ℤ)
    (hf : 0 < frame_rate) :
    calculate_droplet_speed lists [] frame_rate = some 0 := by
  have h1 : closestPairs lists [] = [] := by simp [closestPairs]
  rw [calculate_droplet_speed_eq _ _ (ne_of_gt hf), h1]
  simp [meanRowAdvance]

/-- Witness for C5 at a concrete input. -/
theorem empty_prev_list_speed_zero_witness :
    calculate_droplet_speed [((7 : ℚ), (2 : ℚ))] [] 30 = some 0 :=
  empty_prev_list_speed_zero [((7 : ℚ), (2 : ℚ))] 30 (by decide)

/-- Claim C6: a zero frame rate — the class-level default of
`Frame.frame_rate` — makes the estimator fail fast (Python raises
`ZeroDivisionError` at `1 / Frame.frame_rate`, modelled as `none`) instead of
returning any numeric speed. -/
theorem zero_frame_rate_fails (lists prev_lists : List Droplet) :
    calculate_droplet_speed lists prev_lists 0 = none
    ∧ calculate_droplet_speed lists prev_lists frame_rate_default = none := by
  constructor <;> simp [calculate_droplet_speed, frame_rate_default]

/-- Claim C9: the vestigial `y_intercept_difference` computed for each
positional pair has no effect on the output — the estimator is extensionally
equal to the variant that omits the computation. -/
theorem diagnostic_value_unused (lists prev_lists : List Droplet) (frame_rate : ℤ) :
    calculate_droplet_speed lists prev_lists frame_rate
      = calculate_droplet_speed_noDiagnostic lists prev_lists frame_rate := rfl

/-- Claim C10: for integer `center_row` values and a positive frame rate, the
returned speed is nonnegative, and strictly positive exactly when at least one
target-candidate pair is recorded; every recorded row advance is at least 1
because each chosen candidate's `center_row` strictly exceeds its target's. -/
theorem speed_nonneg_pos_iff (lists prev_lists : List Droplet) (frame_rate : ℤ)
    (hf : 0 < frame_rate)
    (hrow₁ : ∀ p ∈ lists, ∃ k : ℤ, p.1 = (k : ℚ))
    (hrow₂ : ∀ p ∈ prev_lists, ∃ k : ℤ, p.1 = (k : ℚ)) :
    ∃ s : ℚ, calculate_droplet_speed lists prev_lists frame_rate = some s
      ∧ 0 ≤ s
      ∧ (0 < s ↔ closestPairs lists prev_lists ≠ [])
      ∧ ∀ pair ∈ closestPairs lists prev_lists, 1 ≤ pair.2 - pair.1 := by
  have hadv : ∀ pair ∈ closestPairs lists prev_lists, 1 ≤ pair.2 - pair.1 := by
    intro q hq
    rcases mem_closestPairs_iff.mp hq with ⟨t, r, htr, c, hcp, rfl⟩
    have hcand : c ∈ candidates prev_lists t := closestPair_mem hcp
    have hcmem := mem_candidates.mp hcand
    obtain ⟨a, ha⟩ := hrow₁ t (List.of_mem_zip htr).1
    obtain ⟨b, hb⟩ := hrow₂ c hcmem.1
    have hab : a < b := by
      have := hcmem.2
      rw [ha, hb] at this
      exact_mod_cast this
    have : a + 1 ≤ b := hab
    simp only [ha, hb]
    have : ((a : ℚ)) + 1 ≤ (b : ℚ) := by exact_mod_cast this
    linarith
  have hconv : (0 : ℚ) < conversion := by norm_num [conversion]
  have hfq : (0 : ℚ) < (frame_rate : ℚ) := by exact_mod_cast hf
  refine ⟨meanRowAdvance (closestPairs lists prev_lists) * conversion * (frame_rate : ℚ),
    calculate_droplet_speed_eq _ _ (ne_of_gt hf), ?_, ?_, hadv⟩
  · by_cases hp : closestPairs lists prev_lists = []
    · simp [hp, meanRowAdvance]
    · have hmean : 0 < meanRowAdvance (closestPairs lists prev_lists) := by
        rw [meanRowAdvance_eq hp]
        apply div_pos
        · refine List.sum_pos _ ?_ (by simpa using hp)
          intro x hx
          rcases List.mem_map.mp hx with ⟨q, hq, rfl⟩
          have := hadv q hq
          linarith
        · exact_mod_cast List.length_pos.mpr hp
      positivity
  · constructor
    · intro hs hp
      rw [hp] at hs
      simp [meanRowAdvance] at hs
    · intro hp
      have hmean : 0 < meanRowAdvance (closestPairs lists prev_lists) := by
        rw [meanRowAdvance_eq hp]
        apply div_pos
        · refine List.sum_pos _ ?_ (by simpa using hp)
          intro x hx
          rcases List.mem_map.mp hx with ⟨q, hq, rfl⟩
          have := hadv q hq
          linarith
        · exact_mod_cast List.length_pos.mpr hp
      positivity

/-- Witness for C10 at a concrete input with integer rows. -/
theorem speed_nonneg_pos_iff_witness :
    ∃ s : ℚ, calculate_droplet_speed [((40 : ℚ), (3 : ℚ))] [((50 : ℚ), (4 : ℚ))] 2 = some s
      ∧ 0 ≤ s
      ∧ (0 < s ↔ closestPairs [((40 : ℚ), (3 : ℚ))] [((50 : ℚ), (4 : ℚ))] ≠ [])
      ∧ ∀ pair ∈ closestPairs [((40 : ℚ), (3 : ℚ))] [((50 : ℚ), (4 : ℚ))],
          1 ≤ pair.2 - pair.1 :=
  speed_nonneg_pos_iff [((40 : ℚ), (3 : ℚ))] [((50 : ℚ), (4 : ℚ))] 2 (by decide)
    (by
      intro p hp
      simp only [List.mem_singleton] at hp
      subst hp
      exact ⟨40, by norm_num⟩)
    (by
      intro p hp
      simp only [List.mem_singleton] at hp
      subst hp
      exact ⟨50, by norm_num⟩)

/-! Claims about the Shape Extractor and Classifier, the measurers, and the
Preprocessor. -/

/-- Claim C2: on every non-degenerate shape (nonzero zeroth moment) the
classification is total and deterministic on its roundness value —
`roundness >= 0.5` gives DROPLET, `roundness <= 0.3` gives JET, and the dead
zone `0.3 < roundness < 0.5` gives NONE; a NONE shape is neither measured nor
counted and contributes nothing to any output of the frame pass. -/
theorem classification_policy {K : Type} [Field K] (rad : ℚ → K) :
    (∀ r : ℚ,
        ((1 : ℚ) / 2 ≤ r → classify r = Category.DROPLET)
        ∧ (r ≤ 3 / 10 → classify r = Category.JET)
        ∧ ((3 : ℚ) / 10 < r → r < 1 / 2 → classify r = Category.NONE))
    ∧ ∀ (l₁ l₂ : List Contour) (cnt : Contour), cnt.m00 ≠ 0 →
        classify cnt.roundness = Category.NONE →
        detect_droplets_and_jet rad (l₁ ++ cnt :: l₂)
          = detect_droplets_and_jet rad (l₁ ++ l₂) := by
  constructor
  · intro r
    refine ⟨fun h => classify_eq_DROPLET.mpr h, fun h => classify_eq_JET.mpr h,
      fun h1 h2 => classify_eq_NONE.mpr ⟨by linarith, by linarith⟩⟩
  · intro l₁ l₂ cnt h0 hnone
    have hst : (l₁ ++ cnt :: l₂).foldl (detectStep rad) (⟨0, 0, 0, 0, []⟩ : DetectState K)
        = (l₁ ++ l₂).foldl (detectStep rad) ⟨0, 0, 0, 0, []⟩ := by
      rw [List.foldl_append, List.foldl_cons, detectStep_none rad _ cnt hnone,
        ← List.foldl_append]
    unfold detect_droplets_and_jet
    rw [hst]

/-- Witness for C2: one roundness value in each band, and a concrete dead-zone
contour whose insertion leaves the frame pass unchanged. -/
theorem classification_policy_witness :
    classify ((3 : ℚ) / 5) = Category.DROPLET
    ∧ classify ((1 : ℚ) / 5) = Category.JET
    ∧ classify ((2 : ℚ) / 5) = Category.NONE
    ∧ detect_droplets_and_jet (fun a : ℚ => a)
        [⟨1, 2 / 5, 4, 7, []⟩]
        = detect_droplets_and_jet (fun a : ℚ => a) [] := by
  obtain ⟨hmap, hnone⟩ := classification_policy (K := ℚ) (fun a => a)
  have hD : classify ((3 : ℚ) / 5) = Category.DROPLET := (hmap (3 / 5)).1 (by norm_num)
  have hJ : classify ((1 : ℚ) / 5) = Category.JET := (hmap (1 / 5)).2.1 (by norm_num)
  have hN : classify ((2 : ℚ) / 5) = Category.NONE :=
    (hmap (2 / 5)).2.2 (by norm_num) (by norm_num)
  refine ⟨hD, hJ, hN, ?_⟩
  have h := hnone [] [] ⟨1, 2 / 5, 4, 7, []⟩ (by norm_num) hN
  simpa using h

/-- Counterexample to Claim C4 as stated: on the three-point boundary
`[(0,0), (0,1), (1,2)]` the sorted columns are `[0, 0, 1]`, the left half is
`[0]` with exact mean `0` and the right half is `[0, 1]` with exact mean
`1/2`, so the claimed width `mean(right) - mean(left)` is `1/2`; the source
truncates each mean with `int(...)` before subtracting and returns `0`. -/
theorem jet_measure_counterexample :
    ¬ (((jet_width_length [((0 : ℤ), (0 : ℤ)), ((0 : ℤ), (1 : ℤ)), ((1 : ℤ), (2 : ℤ))]).1 : ℚ)
        = ((0 : ℚ) + 1) / 2 - (0 : ℚ) / 1) := by
  have h : (jet_width_length [((0 : ℤ), (0 : ℤ)), ((0 : ℤ), (1 : ℤ)), ((1 : ℤ), (2 : ℤ))]).1
      = 0 := by decide
  rw [h]
  norm_num

/-- Claim C4 (amended): for every boundary with at least two points,
`jet_width_length` returns length `max(row) - min(row)` over the boundary
points, and width
`trunc(mean(right_half_columns)) - trunc(mean(left_half_columns))`, where the
column coordinates are sorted, split at the integer-floor midpoint index with
the extra point of an odd-length sequence falling into the right half, and
each half's exact mean is truncated toward zero (Python's `int(np.mean(...))`)
before the subtraction — the truncation being the only deviation from the
claim as stated. -/
theorem jet_measure (cnt : List (ℤ × ℤ)) (h2 : 2 ≤ cnt.length)
    (s : List ℤ) (hperm : s.Perm (cnt.map Prod.fst))
    (hsort : List.Sorted (· ≤ ·) s) :
    (∃ maxr ∈ cnt.map Prod.snd, ∃ minr ∈ cnt.map Prod.snd,
        (∀ y ∈ cnt.map Prod.snd, minr ≤ y ∧ y ≤ maxr)
        ∧ (jet_width_length cnt).2 = maxr - minr)
    ∧ (jet_width_length cnt).1
        = truncQ (((s.drop (cnt.length / 2)).sum : ℚ) / ((s.drop (cnt.length / 2)).length : ℚ))
          - truncQ (((s.take (cnt.length / 2)).sum : ℚ)
              / ((s.take (cnt.length / 2)).length : ℚ)) := by
  have hmapne : cnt.map Prod.snd ≠ [] := by
    intro h
    rw [List.map_eq_nil_iff] at h
    subst h
    simp at h2
  constructor
  · obtain ⟨hmax_mem, hmax_le⟩ := listAmax_spec hmapne
    obtain ⟨hmin_mem, hmin_le⟩ := listAmin_spec hmapne
    exact ⟨listAmax (cnt.map Prod.snd), hmax_mem, listAmin (cnt.map Prod.snd), hmin_mem,
      fun y hy => ⟨hmin_le y hy, hmax_le y hy⟩, rfl⟩
  · have hs_eq : s = List.insertionSort (· ≤ ·) (cnt.map Prod.fst) :=
      List.eq_of_perm_of_sorted
        (hperm.trans (List.perm_insertionSort (· ≤ ·) (cnt.map Prod.fst)).symm)
        hsort (List.sorted_insertionSort (· ≤ ·) (cnt.map Prod.fst))
    have hlen : (List.insertionSort (· ≤ ·) (cnt.map Prod.fst)).length = cnt.length := by
      rw [(List.perm_insertionSort (· ≤ ·) (cnt.map Prod.fst)).length_eq, List.length_map]
    subst hs_eq
    have hhalf : cnt.length / 2 ≤ cnt.length := Nat.div_le_self _ _
    have htake : (List.insertionSort (· ≤ ·) (cnt.map Prod.fst)).take (cnt.length / 2)
        ≠ [] := by
      intro h
      have := congrArg List.length h
      rw [List.length_take, hlen] at this
      simp only [List.length_nil] at this
      rw [min_eq_left hhalf] at this
      omega
    have hdrop : (List.insertionSort (· ≤ ·) (cnt.map Prod.fst)).drop (cnt.length / 2)
        ≠ [] := by
      intro h
      have := congrArg List.length h
      rw [List.length_drop, hlen] at this
      simp only [List.length_nil] at this
      omega
    have hwl : (jet_width_length cnt).1
        = int_mean ((List.insertionSort (· ≤ ·) (cnt.map Prod.fst)).drop
            ((List.insertionSort (· ≤ ·) (cnt.map Prod.fst)).length / 2))
          - int_mean ((List.insertionSort (· ≤ ·) (cnt.map Prod.fst)).take
              ((List.insertionSort (· ≤ ·) (cnt.map Prod.fst)).length / 2)) := rfl
    rw [hwl, hlen, int_mean_eq_truncQ _ hdrop, int_mean_eq_truncQ _ htake]

/-- Witness for C4 at the boundary `[(0,0), (0,1), (1,2)]` with its sorted
column list `[0, 0, 1]`. -/
theorem jet_measure_witness :
    (∃ maxr ∈ [((0 : ℤ), (0 : ℤ)), ((0 : ℤ), (1 : ℤ)), ((1 : ℤ), (2 : ℤ))].map Prod.snd,
      ∃ minr ∈ [((0 : ℤ), (0 : ℤ)), ((0 : ℤ), (1 : ℤ)), ((1 : ℤ), (2 : ℤ))].map Prod.snd,
        (∀ y ∈ [((0 : ℤ), (0 : ℤ)), ((0 : ℤ), (1 : ℤ)), ((1 : ℤ), (2 : ℤ))].map Prod.snd,
            minr ≤ y ∧ y ≤ maxr)
        ∧ (jet_width_length [((0 : ℤ), (0 : ℤ)), ((0 : ℤ), (1 : ℤ)), ((1 : ℤ), (2 : ℤ))]).2
            = maxr - minr)
    ∧ (jet_width_length [((0 : ℤ), (0 : ℤ)), ((0 : ℤ), (1 : ℤ)), ((1 : ℤ), (2 : ℤ))]).1
        = truncQ ((([(0 : ℤ), 0, 1].drop
              ([((0 : ℤ), (0 : ℤ)), ((0 : ℤ), (1 : ℤ)), ((1 : ℤ), (2 : ℤ))].length / 2)).sum : ℚ)
            / (([(0 : ℤ), 0, 1].drop
              ([((0 : ℤ), (0 : ℤ)), ((0 : ℤ), (1 : ℤ)), ((1 : ℤ), (2 : ℤ))].length / 2)).length : ℚ))
          - truncQ ((([(0 : ℤ), 0, 1].take
              ([((0 : ℤ), (0 : ℤ)), ((0 : ℤ), (1 : ℤ)), ((1 : ℤ), (2 : ℤ))].length / 2)).sum : ℚ)
            / (([(0 : ℤ), 0, 1].take
              ([((0 : ℤ), (0 : ℤ)), ((0 : ℤ), (1 : ℤ)), ((1 : ℤ), (2 : ℤ))].length / 2)).length : ℚ)) :=
  jet_measure [((0 : ℤ), (0 : ℤ)), ((0 : ℤ), (1 : ℤ)), ((1 : ℤ), (2 : ℤ))] (by decide)
    [(0 : ℤ), 0, 1] (by decide) (by decide)

/-- Claim C7: the average droplet radius returned by the frame pass is the
arithmetic mean of the radii `sqrt(area / pi)` of all droplet-classified
shapes, and `0` when no droplets are detected. -/
theorem average_droplet_radius_spec (contours : List Contour) :
    (detect_droplets_and_jet (fun a => Real.sqrt ((a : ℝ) / Real.pi)) contours).2.1
      = if (contours.filter fun c =>
            decide (c.m00 ≠ 0 ∧ classify c.roundness = Category.DROPLET)) = []
        then 0
        else ((contours.filter fun c =>
                decide (c.m00 ≠ 0 ∧ classify c.roundness = Category.DROPLET)).map
                  fun c => Real.sqrt ((c.area : ℝ) / Real.pi)).sum
              / ((contours.filter fun c =>
                decide (c.m00 ≠ 0 ∧ classify c.roundness = Category.DROPLET)).length : ℝ) := by
  have hfe : (contours.filter fun c =>
        decide (c.m00 ≠ 0 ∧ classify c.roundness = Category.DROPLET))
      = dropletFilter contours := by
    unfold dropletFilter
    apply List.filter_congr
    intro c hc
    simp only [decide_eq_decide]
    exact and_congr_right fun _ => classify_eq_DROPLET
  rw [hfe]
  obtain ⟨i1, i2, i3⟩ :=
    detect_foldl_inv (K := ℝ) (fun a => Real.sqrt ((a : ℝ) / Real.pi)) contours ⟨0, 0, 0, 0, []⟩
  unfold detect_droplets_and_jet
  simp only
  rw [i1, i2]
  simp only [Nat.zero_add, zero_add]
  by_cases hfil : dropletFilter contours = []
  · simp [hfil]
  · rw [if_pos (List.length_pos.mpr hfil), if_neg hfil]

/-- Claim C8: the Preprocessor is a pure function of the input frame and the
threshold — two calls on frame states with identical images and the same
threshold produce identical masks, whatever the other (mutable or
class-level) state holds. -/
theorem process_image_pure {Image : Type} (ops : CvOps Image) (s₁ s₂ : FrameState Image)
    (threshold : ℤ) (h : s₁.image = s₂.image) :
    (process_image ops s₁ threshold).2 = (process_image ops s₂ threshold).2 := by
  unfold process_image
  rw [h]

/-- Witness for C8: two frame states sharing an image but differing in every
other field produce the same mask. -/
theorem process_image_pure_witness :
    (process_image (⟨id, id, id, id, fun i _ _ => i⟩ : CvOps ℤ) ⟨0, 1, true, 2, 3⟩ 7).2
      = (process_image (⟨id, id, id, id, fun i _ _ => i⟩ : CvOps ℤ) ⟨0, 4, false, 5, 6⟩ 7).2 :=
  process_image_pure ⟨id, id, id, id, fun i _ _ => i⟩ ⟨0, 1, true, 2, 3⟩ ⟨0, 4, false, 5, 6⟩
    7 rfl

end Microjet
